import Mathlib

/-!
Verification of the Student Marks Analysis System.

The program (src/Student-Marks-analysis.py) builds a 2D table of marks
(rows = students, columns = subjects), reduces each row to
mean / max / min / standard deviation with numpy, and ranks students by
mean descending via np.argsort followed by reversal.

Shallow embedding conventions:
  * a score matrix is a List (List Rat), row major, as in the Python list
    of rows handed to np.array;
  * numpy reductions along axis 1 are per-row functions; np.max and
    np.min raise a ValueError on an empty row, modelled as Option.none,
    which the enclosing function surfaces as Except.error; np.mean on an
    empty row yields nan with only a warning, but that value can never
    escape calculate_student_statistics because np.max raises first, so
    the rational division-by-zero junk value (which is 0 in Lean) is
    never observable;
  * numpy fancy indexing arr[idxs] raises an IndexError when an index is
    out of range, modelled as Option.none surfaced as Except.error;
  * np.argsort is embedded as a sort of the index range ascending by
    value, with ties broken by original index; the program calls the
    default quicksort kind, whose tie order numpy documents only below
    its internal small-sort cutoff (where it runs a stable insertion
    sort) and leaves unspecified above it, so the embedded tie order is
    exact for small arrays (such as the 5-element demo data) and an
    arbitrary representative choice for larger ones; no theorem below
    depends on the tie order, only on sortedness by value and on the
    result being a permutation of the index range, which hold for every
    argsort kind;
  * np.std uses the default ddof = 0, i.e. the population formula
    sqrt(mean(abs(x - x.mean())**2)).
-/

namespace StudentMarks

/-- The two runtime failures numpy can raise in the embedded fragment: a
ValueError from reducing an empty axis (np.max / np.min on an empty row)
and an IndexError from fancy indexing with an out-of-range index. -/
inductive NpError where
  | emptyReduce
  | indexOutOfRange
deriving DecidableEq

/-- np.mean of one row: sum divided by length. -/
def np_mean_row (row : List ℚ) : ℚ :=
  row.sum / (row.length : ℚ)

/-- np.max along one row: a ValueError (none) on an empty row, otherwise
the fold of max over the elements. -/
def np_max_row : List ℚ → Option ℚ
  | [] => none
  | x :: xs => some (xs.foldl max x)

/-- np.min along one row: a ValueError (none) on an empty row, otherwise
the fold of min over the elements. -/
def np_min_row : List ℚ → Option ℚ
  | [] => none
  | x :: xs => some (xs.foldl min x)

/-- Helper: the value np.max returns on a nonempty row (junk 0 on an
empty row, where the real np.max raises instead). -/
def np_max_val : List ℚ → ℚ
  | [] => 0
  | x :: xs => xs.foldl max x

/-- Helper: the value np.min returns on a nonempty row (junk 0 on an
empty row, where the real np.min raises instead). -/
def np_min_val : List ℚ → ℚ
  | [] => 0
  | x :: xs => xs.foldl min x

/-- The radicand of np.std for one row: mean(abs(x - x.mean())**2), the
population variance (numpy default ddof = 0). -/
def np_var_row (row : List ℚ) : ℚ :=
  np_mean_row (row.map (fun x => |x - np_mean_row row| ^ 2))

/-- np.std for one row: the square root of the population variance. -/
noncomputable def np_std_row (row : List ℚ) : ℝ :=
  Real.sqrt ((np_var_row row : ℚ) : ℝ)

/-- A numpy reduction applied along axis 1: every row is reduced, and a
row on which the reduction raises (none) makes the whole reduction
raise. -/
def np_reduce_axis1 (f : List ℚ → Option ℚ) : List (List ℚ) → Option (List ℚ)
  | [] => some []
  | row :: rest =>
    match f row, np_reduce_axis1 f rest with
    | some v, some vs => some (v :: vs)
    | _, _ => none

/-- Comparison embedding np.argsort: ascending by value, with ties in
value broken by the original index (the stability of the sort). -/
def argsort_le (a : List ℚ) (i j : ℕ) : Prop :=
  a.getD i 0 < a.getD j 0 ∨ (a.getD i 0 = a.getD j 0 ∧ i ≤ j)

instance (a : List ℚ) (i j : ℕ) : Decidable (argsort_le a i j) := by
  unfold argsort_le
  infer_instance

/-- np.argsort: the indices 0..len-1 sorted so that the array values
read off along them are ascending. The tie order fixed here (equal
values keep their original relative order) is what numpy produces below
its small-sort cutoff, where the default quicksort kind runs a stable
insertion sort; above the cutoff numpy leaves the tie order
unspecified, so facts depending on it are not claimed for the program,
and every theorem below uses only sortedness by value and the
permutation property, shared by all argsort kinds. -/
def np_argsort (a : List ℚ) : List ℕ :=
  List.insertionSort (argsort_le a) (List.range a.length)

/-- The index sequence rank_students builds: np.argsort(averages)[::-1],
the ascending stable argsort reversed wholesale. -/
def sorted_indices (averages : List ℚ) : List ℕ :=
  (np_argsort averages).reverse

/-- numpy fancy indexing xs[idxs]: every index must be in range,
otherwise an IndexError (none). -/
def np_fancy_index (xs : List α) : List ℕ → Option (List α)
  | [] => some []
  | i :: is =>
    match xs.get? i, np_fancy_index xs is with
    | some v, some vs => some (v :: vs)
    | _, _ => none

/-- np.arange a b: the integers from a up to but excluding b. -/
def np_arange (a b : ℕ) : List ℕ :=
  List.range' a (b - a)

/-- Surfaces a failed reduction (np.max / np.min over an empty axis) as
the ValueError numpy raises there. -/
def check_reduce (o : Option α) : Except NpError α :=
  match o with
  | some v => Except.ok v
  | none => Except.error NpError.emptyReduce

/-- Surfaces a failed fancy indexing as the IndexError numpy raises
there. -/
def check_index (o : Option α) : Except NpError α :=
  match o with
  | some v => Except.ok v
  | none => Except.error NpError.indexOutOfRange

/-- calculate_student_statistics(marks): per-row mean, max, min, std, in
the evaluation order of the source. np.mean never raises (nan junk on an
empty row), np.max raises a ValueError on an empty row, so a matrix with
an empty row makes the whole call fail with no partial output. -/
noncomputable def calculate_student_statistics (marks : List (List ℚ)) :
    Except NpError (List ℚ × List ℚ × List ℚ × List ℝ) := do
  let averages := marks.map np_mean_row
  let maximums ← check_reduce (np_reduce_axis1 np_max_row marks)
  let minimums ← check_reduce (np_reduce_axis1 np_min_row marks)
  let std_devs := marks.map np_std_row
  return (averages, maximums, minimums, std_devs)

/-- rank_students(student_names, averages): fancy-index the names and
the averages by the reversed argsort of the averages, and pair them with
the ranks np.arange(1, len(student_names) + 1). -/
def rank_students (student_names : List String) (averages : List ℚ) :
    Except NpError (List String × List ℚ × List ℕ) := do
  let idxs := sorted_indices averages
  let ranked_names ← check_index (np_fancy_index student_names idxs)
  let ranked_averages ← check_index (np_fancy_index averages idxs)
  return (ranked_names, ranked_averages, np_arange 1 (student_names.length + 1))

/-- create_student_data(): the hardcoded 5 x 5 demo matrix with its
student names and subject names. -/
def create_student_data : List (List ℚ) × List String × List String :=
  ([[85, 78, 92, 88, 90],
    [76, 82, 79, 85, 88],
    [92, 95, 89, 91, 94],
    [68, 72, 75, 70, 73],
    [88, 85, 87, 89, 86]],
   ["Alice", "Bob", "Charlie", "David", "Eve"],
   ["Math", "Physics", "Chemistry", "English", "Computer"])

/-! ### Lemmas about the row reductions -/

theorem np_max_row_eq_some (row : List ℚ) (h : row ≠ []) :
    np_max_row row = some (np_max_val row) := by
  cases row with
  | nil => exact absurd rfl h
  | cons x xs => rfl

theorem np_min_row_eq_some (row : List ℚ) (h : row ≠ []) :
    np_min_row row = some (np_min_val row) := by
  cases row with
  | nil => exact absurd rfl h
  | cons x xs => rfl

theorem le_foldl_max (xs : List ℚ) (x : ℚ) :
    x ≤ xs.foldl max x ∧ ∀ y ∈ xs, y ≤ xs.foldl max x := by
  induction xs generalizing x with
  | nil => simp
  | cons z zs ih =>
    refine ⟨le_trans (le_max_left x z) (ih (max x z)).1, ?_⟩
    intro y hy
    rcases List.mem_cons.mp hy with hy | hy
    · subst hy
      exact le_trans (le_max_right x y) (ih (max x y)).1
    · exact (ih (max x z)).2 y hy

theorem foldl_min_le (xs : List ℚ) (x : ℚ) :
    xs.foldl min x ≤ x ∧ ∀ y ∈ xs, xs.foldl min x ≤ y := by
  induction xs generalizing x with
  | nil => simp
  | cons z zs ih =>
    refine ⟨le_trans (ih (min x z)).1 (min_le_left x z), ?_⟩
    intro y hy
    rcases List.mem_cons.mp hy with hy | hy
    · subst hy
      exact le_trans (ih (min x y)).1 (min_le_right x y)
    · exact (ih (min x z)).2 y hy

theorem le_np_max_val (row : List ℚ) (y : ℚ) (hy : y ∈ row) : y ≤ np_max_val row := by
  cases row with
  | nil => cases hy
  | cons x xs =>
    rcases List.mem_cons.mp hy with h | h
    · subst h
      exact (le_foldl_max xs y).1
    · exact (le_foldl_max xs x).2 y h

theorem np_min_val_le (row : List ℚ) (y : ℚ) (hy : y ∈ row) : np_min_val row ≤ y := by
  cases row with
  | nil => cases hy
  | cons x xs =>
    rcases List.mem_cons.mp hy with h | h
    · subst h
      exact (foldl_min_le xs y).1
    · exact (foldl_min_le xs x).2 y h

theorem sum_le_length_mul (l : List ℚ) (M : ℚ) (h : ∀ y ∈ l, y ≤ M) :
    l.sum ≤ (l.length : ℚ) * M := by
  induction l with
  | nil => simp
  | cons x xs ih =>
    have hx : x ≤ M := h x (List.mem_cons_self x xs)
    have hxs : xs.sum ≤ (xs.length : ℚ) * M := ih (fun y hy => h y (List.mem_cons_of_mem x hy))
    simp only [List.sum_cons, List.length_cons]
    push_cast
    nlinarith

theorem length_mul_le_sum (l : List ℚ) (m : ℚ) (h : ∀ y ∈ l, m ≤ y) :
    (l.length : ℚ) * m ≤ l.sum := by
  induction l with
  | nil => simp
  | cons x xs ih =>
    have hx : m ≤ x := h x (List.mem_cons_self x xs)
    have hxs : (xs.length : ℚ) * m ≤ xs.sum := ih (fun y hy => h y (List.mem_cons_of_mem x hy))
    simp only [List.sum_cons, List.length_cons]
    push_cast
    nlinarith

theorem np_mean_row_le_max (row : List ℚ) (h : row ≠ []) :
    np_mean_row row ≤ np_max_val row := by
  have hlen : 0 < (row.length : ℚ) := by
    have := List.length_pos.mpr h
    exact_mod_cast this
  rw [np_mean_row, div_le_iff₀ hlen]
  have := sum_le_length_mul row (np_max_val row) (fun y hy => le_np_max_val row y hy)
  linarith

theorem min_le_np_mean_row (row : List ℚ) (h : row ≠ []) :
    np_min_val row ≤ np_mean_row row := by
  have hlen : 0 < (row.length : ℚ) := by
    have := List.length_pos.mpr h
    exact_mod_cast this
  rw [np_mean_row, le_div_iff₀ hlen]
  have := length_mul_le_sum row (np_min_val row) (fun y hy => np_min_val_le row y hy)
  linarith

theorem sum_eq_zero_iff_of_nonneg (l : List ℚ) (h : ∀ x ∈ l, 0 ≤ x) :
    l.sum = 0 ↔ ∀ x ∈ l, x = 0 := by
  induction l with
  | nil => simp
  | cons x xs ih =>
    have hx : 0 ≤ x := h x (List.mem_cons_self x xs)
    have hxs : ∀ y ∈ xs, 0 ≤ y := fun y hy => h y (List.mem_cons_of_mem x hy)
    have hsum : 0 ≤ xs.sum := List.sum_nonneg hxs
    constructor
    · intro h0
      have hx0 : x = 0 := by
        simp only [List.sum_cons] at h0
        linarith
      have hrest : xs.sum = 0 := by
        simp only [List.sum_cons] at h0
        linarith
      intro y hy
      rcases List.mem_cons.mp hy with hy | hy
      · exact hy ▸ hx0
      · exact (ih hxs).mp hrest y hy
    · intro hall
      simp only [List.sum_cons]
      rw [hall x (List.mem_cons_self x xs), (ih hxs).mpr (fun y hy => hall y (List.mem_cons_of_mem x hy))]
      simp

theorem sum_of_constant (l : List ℚ) (c : ℚ) (h : ∀ x ∈ l, x = c) :
    l.sum = (l.length : ℚ) * c := by
  induction l with
  | nil => simp
  | cons x xs ih =>
    have hx : x = c := h x (List.mem_cons_self x xs)
    have hxs : xs.sum = (xs.length : ℚ) * c := ih (fun y hy => h y (List.mem_cons_of_mem x hy))
    simp only [List.sum_cons, List.length_cons, hx, hxs]
    push_cast
    ring

theorem np_mean_row_of_constant (row : List ℚ) (c : ℚ) (hne : row ≠ [])
    (h : ∀ x ∈ row, x = c) : np_mean_row row = c := by
  have hlen : (row.length : ℚ) ≠ 0 := by
    have := List.length_pos.mpr hne
    positivity
  rw [np_mean_row, sum_of_constant row c h, mul_comm, mul_div_assoc, div_self hlen, mul_one]

theorem np_var_row_nonneg (row : List ℚ) : 0 ≤ np_var_row row := by
  rw [np_var_row, np_mean_row]
  have hsum : 0 ≤ (row.map (fun x => |x - np_mean_row row| ^ 2)).sum := by
    apply List.sum_nonneg
    intro y hy
    rcases List.mem_map.mp hy with ⟨x, _, rfl⟩
    positivity
  have hlen : (0 : ℚ) ≤ ((row.map (fun x => |x - np_mean_row row| ^ 2)).length : ℚ) := by
    positivity
  positivity

theorem np_var_row_eq_zero_iff (row : List ℚ) (hne : row ≠ []) :
    np_var_row row = 0 ↔ ∀ x ∈ row, x = np_mean_row row := by
  have hlen : ((row.map (fun x => |x - np_mean_row row| ^ 2)).length : ℚ) ≠ 0 := by
    simp only [List.length_map]
    have := List.length_pos.mpr hne
    positivity
  rw [np_var_row, np_mean_row, div_eq_zero_iff]
  constructor
  · intro h
    rcases h with h | h
    · intro x hx
      have hterm := (sum_eq_zero_iff_of_nonneg _ (by
        intro y hy
        rcases List.mem_map.mp hy with ⟨z, _, rfl⟩
        positivity)).mp h
      have := hterm (|x - np_mean_row row| ^ 2) (List.mem_map.mpr ⟨x, hx, rfl⟩)
      have habs : |x - np_mean_row row| = 0 := by
        nlinarith [abs_nonneg (x - np_mean_row row)]
      have := abs_eq_zero.mp habs
      linarith
    · exact absurd h hlen
  · intro h
    left
    apply (sum_eq_zero_iff_of_nonneg _ (by
      intro y hy
      rcases List.mem_map.mp hy with ⟨z, _, rfl⟩
      positivity)).mpr
    intro y hy
    rcases List.mem_map.mp hy with ⟨z, hz, rfl⟩
    rw [h z hz]
    simp

theorem all_eq_iff_all_eq_mean (row : List ℚ) (hne : row ≠ []) :
    (∀ x ∈ row, ∀ y ∈ row, x = y) ↔ ∀ x ∈ row, x = np_mean_row row := by
  constructor
  · intro h x hx
    cases row with
    | nil => exact absurd rfl hne
    | cons z zs =>
      have hz : ∀ w ∈ z :: zs, w = z := fun w hw => h w hw z (List.mem_cons_self z zs)
      rw [np_mean_row_of_constant (z :: zs) z hne hz, hz x hx]
  · intro h x hx y hy
    rw [h x hx, h y hy]

/-! ### Lemmas about the axis-1 reductions and the statistics pipeline -/

theorem np_reduce_axis1_eq_none (f : List ℚ → Option ℚ) (marks : List (List ℚ))
    (row : List ℚ) (hrow : row ∈ marks) (hf : f row = none) :
    np_reduce_axis1 f marks = none := by
  induction marks with
  | nil => cases hrow
  | cons r rest ih =>
    rcases List.mem_cons.mp hrow with h | h
    · subst h
      simp only [np_reduce_axis1, hf]
    · simp only [np_reduce_axis1, ih h]
      cases f r <;> rfl

theorem np_reduce_axis1_eq_some (f : List ℚ → Option ℚ) (g : List ℚ → ℚ)
    (marks : List (List ℚ)) (hf : ∀ row ∈ marks, f row = some (g row)) :
    np_reduce_axis1 f marks = some (marks.map g) := by
  induction marks with
  | nil => rfl
  | cons r rest ih =>
    simp only [np_reduce_axis1, hf r (List.mem_cons_self r rest),
      ih (fun row hrow => hf row (List.mem_cons_of_mem r hrow)), List.map]

theorem calculate_student_statistics_ok (marks : List (List ℚ))
    (h : ∀ row ∈ marks, row ≠ []) :
    calculate_student_statistics marks =
      Except.ok (marks.map np_mean_row, marks.map np_max_val,
        marks.map np_min_val, marks.map np_std_row) := by
  rw [calculate_student_statistics,
    np_reduce_axis1_eq_some np_max_row np_max_val marks
      (fun row hrow => np_max_row_eq_some row (h row hrow)),
    np_reduce_axis1_eq_some np_min_row np_min_val marks
      (fun row hrow => np_min_row_eq_some row (h row hrow))]
  rfl

theorem calculate_student_statistics_empty_row (marks : List (List ℚ))
    (h : [] ∈ marks) :
    calculate_student_statistics marks = Except.error NpError.emptyReduce := by
  rw [calculate_student_statistics,
    np_reduce_axis1_eq_none np_max_row marks [] h rfl]
  rfl

/-! ### Lemmas about np.argsort and the ranking pipeline -/

instance (a : List ℚ) : IsTotal ℕ (argsort_le a) := by
  constructor
  intro i j
  rcases lt_trichotomy (a.getD i 0) (a.getD j 0) with h | h | h
  · exact Or.inl (Or.inl h)
  · rcases Nat.le_total i j with hij | hij
    · exact Or.inl (Or.inr ⟨h, hij⟩)
    · exact Or.inr (Or.inr ⟨h.symm, hij⟩)
  · exact Or.inr (Or.inl h)

instance (a : List ℚ) : IsTrans ℕ (argsort_le a) := by
  constructor
  intro i j k hij hjk
  rcases hij with hij | ⟨hije, hijle⟩
  · rcases hjk with hjk | ⟨hjke, _⟩
    · exact Or.inl (lt_trans hij hjk)
    · exact Or.inl (hjke ▸ hij)
  · rcases hjk with hjk | ⟨hjke, hjkle⟩
    · exact Or.inl (hije ▸ hjk)
    · exact Or.inr ⟨hije.trans hjke, le_trans hijle hjkle⟩

theorem np_argsort_perm (a : List ℚ) : (np_argsort a).Perm (List.range a.length) :=
  List.perm_insertionSort (argsort_le a) (List.range a.length)

theorem np_argsort_sorted (a : List ℚ) : (np_argsort a).Sorted (argsort_le a) :=
  List.sorted_insertionSort (argsort_le a) (List.range a.length)

theorem np_argsort_nodup (a : List ℚ) : (np_argsort a).Nodup :=
  (np_argsort_perm a).nodup_iff.mpr (List.nodup_range a.length)

theorem mem_np_argsort (a : List ℚ) (i : ℕ) : i ∈ np_argsort a ↔ i < a.length := by
  rw [(np_argsort_perm a).mem_iff, List.mem_range]

theorem length_np_argsort (a : List ℚ) : (np_argsort a).length = a.length := by
  rw [(np_argsort_perm a).length_eq, List.length_range]

theorem sorted_indices_perm (a : List ℚ) :
    (sorted_indices a).Perm (List.range a.length) :=
  (List.reverse_perm (np_argsort a)).trans (np_argsort_perm a)

theorem mem_sorted_indices (a : List ℚ) (i : ℕ) :
    i ∈ sorted_indices a ↔ i < a.length := by
  rw [(sorted_indices_perm a).mem_iff, List.mem_range]

theorem length_sorted_indices (a : List ℚ) :
    (sorted_indices a).length = a.length := by
  rw [(sorted_indices_perm a).length_eq, List.length_range]

theorem np_fancy_index_eq_some {α : Type} (xs : List α) (idxs : List ℕ) (d : α)
    (h : ∀ i ∈ idxs, i < xs.length) :
    np_fancy_index xs idxs = some (idxs.map (fun i => xs.getD i d)) := by
  induction idxs with
  | nil => rfl
  | cons i is ih =>
    have hi : i < xs.length := h i (List.mem_cons_self i is)
    have hget : xs.get? i = some (xs.getD i d) := by
      rw [List.getD_eq_getElem xs d hi, List.get?_eq_getElem?, List.getElem?_eq_getElem hi]
    simp only [np_fancy_index, hget,
      ih (fun j hj => h j (List.mem_cons_of_mem i hj)), List.map]

theorem np_fancy_index_eq_none {α : Type} (xs : List α) (idxs : List ℕ) (i : ℕ)
    (hi : i ∈ idxs) (h : xs.length ≤ i) :
    np_fancy_index xs idxs = none := by
  induction idxs with
  | nil => cases hi
  | cons j js ih =>
    rcases List.mem_cons.mp hi with hj | hj
    · subst hj
      have : xs.get? i = none := List.get?_eq_none.mpr h
      simp only [np_fancy_index, this]
    · simp only [np_fancy_index, ih hj]
      cases xs.get? j <;> rfl

theorem map_getD_range {α : Type} (xs : List α) (d : α) :
    (List.range xs.length).map (fun i => xs.getD i d) = xs := by
  apply List.ext_getElem
  · simp
  · intro i h1 h2
    simp only [List.getElem_map, List.getElem_range]
    exact List.getD_eq_getElem xs d h2

theorem rank_students_ok (names : List String) (means : List ℚ)
    (h : means.length ≤ names.length) :
    rank_students names means =
      Except.ok ((sorted_indices means).map (fun i => names.getD i default),
        (sorted_indices means).map (fun i => means.getD i 0),
        np_arange 1 (names.length + 1)) := by
  rw [rank_students,
    np_fancy_index_eq_some names (sorted_indices means) default
      (fun i hi => lt_of_lt_of_le ((mem_sorted_indices means i).mp hi) h),
    np_fancy_index_eq_some means (sorted_indices means) 0
      (fun i hi => (mem_sorted_indices means i).mp hi)]
  rfl

theorem rank_students_short_names (names : List String) (means : List ℚ)
    (h : names.length < means.length) :
    rank_students names means = Except.error NpError.indexOutOfRange := by
  have hmem : means.length - 1 ∈ sorted_indices means := by
    rw [mem_sorted_indices]
    omega
  have hlen : names.length ≤ means.length - 1 := by omega
  rw [rank_students, np_fancy_index_eq_none names (sorted_indices means)
    (means.length - 1) hmem hlen]
  rfl

theorem getD_map_of_lt {α β : Type} (f : α → β) (l : List α) (d : β) (d2 : α)
    (k : ℕ) (hk : k < l.length) :
    (l.map f).getD k d = f (l.getD k d2) := by
  rw [List.getD_eq_getElem (l.map f) d (by simpa using hk), List.getElem_map,
    List.getD_eq_getElem l d2 hk]

theorem getD_mem_of_lt {α : Type} (l : List α) (d : α) (k : ℕ) (hk : k < l.length) :
    l.getD k d ∈ l := by
  rw [List.getD_eq_getElem l d hk]
  exact List.getElem_mem hk

/-! ### The claims -/

/-- C1: any input matrix containing at least one empty row makes
calculate_student_statistics fail (the ValueError numpy raises when
np.max reduces an empty axis, the failure the design taxonomy files
under ShapeError), returning an error and no partial statistics. -/
theorem claim_C1_empty_row_fails (marks : List (List ℚ)) (h : [] ∈ marks) :
    calculate_student_statistics marks = Except.error NpError.emptyReduce :=
  calculate_student_statistics_empty_row marks h

theorem claim_C1_witness :
    ([] : List ℚ) ∈ ([[]] : List (List ℚ))
    ∧ calculate_student_statistics [[]] = Except.error NpError.emptyReduce :=
  ⟨List.mem_cons_self [] [], claim_C1_empty_row_fails [[]] (List.mem_cons_self [] [])⟩

/-- C3 counterexample: the labels [A, B] and the means [1] have
different lengths, yet rank_students does not fail: it returns only the
single label selected by the argsort of the means, refuting the claim
that every length mismatch produces an error. -/
theorem claim_C3_counterexample :
    (["A", "B"] : List String).length ≠ ([1] : List ℚ).length
    ∧ rank_students ["A", "B"] [1] = Except.ok (["A"], [1], [1, 2]) :=
  ⟨by decide, rfl⟩

/-- C3 amended: rank_students performs no length check. It fails (with
the IndexError numpy raises on out-of-range fancy indexing) exactly when
there are fewer labels than means; whenever the labels are at least as
numerous as the means — equal lengths as in every well-formed call, but
also the mismatched case of extra labels — it succeeds. -/
theorem claim_C3_amended (names : List String) (means : List ℚ) :
    (names.length < means.length →
      rank_students names means = Except.error NpError.indexOutOfRange)
    ∧ (means.length ≤ names.length →
      ∃ out, rank_students names means = Except.ok out) :=
  ⟨rank_students_short_names names means,
    fun h => ⟨_, rank_students_ok names means h⟩⟩

theorem claim_C3_witness :
    rank_students ["A"] [1, 2] = Except.error NpError.indexOutOfRange
    ∧ ∃ out, rank_students ["A", "B", "C"] [1, 2] = Except.ok out :=
  ⟨(claim_C3_amended ["A"] [1, 2]).1 (by decide),
    (claim_C3_amended ["A", "B", "C"] [1, 2]).2 (by decide)⟩

/-- C4: on the hardcoded demo data, calculate_student_statistics returns
the means [86.6, 82, 92.2, 71.6, 87] (exact rationals, so equal to the
claimed two-decimal values), and rank_students on those labels and means
returns Charlie, Eve, Alice, Bob, David with means descending and ranks
1 to 5. -/
theorem claim_C4_demo_scenario :
    (calculate_student_statistics create_student_data.1).map (fun s => s.1) =
      Except.ok [86.6, 82, 92.2, 71.6, 87]
    ∧ rank_students create_student_data.2.1 [86.6, 82, 92.2, 71.6, 87] =
      Except.ok (["Charlie", "Eve", "Alice", "Bob", "David"],
        [92.2, 87, 86.6, 82, 71.6], [1, 2, 3, 4, 5]) := by
  constructor
  · rw [calculate_student_statistics_ok create_student_data.1 (by decide)]
    show Except.ok (create_student_data.1.map np_mean_row) = _
    norm_num [create_student_data, np_mean_row]
  · norm_num [rank_students, sorted_indices, np_argsort, argsort_le, List.insertionSort,
      List.orderedInsert, np_fancy_index, np_arange, List.range', check_index,
      create_student_data, List.get?, Bind.bind, Except.bind, Pure.pure, Except.pure]

theorem components_of_ok (marks : List (List ℚ)) (C : ℕ) (hC : 0 < C)
    (hrows : ∀ row ∈ marks, row.length = C)
    (means maxs mins : List ℚ) (stds : List ℝ)
    (h : calculate_student_statistics marks = Except.ok (means, maxs, mins, stds)) :
    means = marks.map np_mean_row ∧ stds = marks.map np_std_row := by
  have hne : ∀ row ∈ marks, row ≠ [] := by
    intro row hrow hnil
    have hlen := hrows row hrow
    rw [hnil] at hlen
    simp only [List.length_nil] at hlen
    omega
  rw [calculate_student_statistics_ok marks hne] at h
  simp only [Except.ok.injEq, Prod.mk.injEq] at h
  exact ⟨h.1.symm, h.2.2.2.symm⟩

theorem row_of_valid (marks : List (List ℚ)) (C : ℕ) (hC : 0 < C)
    (hrows : ∀ row ∈ marks, row.length = C) (i : ℕ) (hi : i < marks.length) :
    (marks.getD i []).length = C ∧ marks.getD i [] ≠ [] := by
  have hrow : marks.getD i [] ∈ marks := getD_mem_of_lt marks [] i hi
  have hlen := hrows (marks.getD i []) hrow
  refine ⟨hlen, ?_⟩
  intro hnil
  rw [hnil] at hlen
  simp only [List.length_nil] at hlen
  omega

theorem np_var_row_eq (row : List ℚ) (C : ℕ) (hlen : row.length = C) :
    np_var_row row = (row.map (fun x => (x - np_mean_row row) ^ 2)).sum / (C : ℚ) := by
  rw [np_var_row]
  have harg : row.map (fun x => |x - np_mean_row row| ^ 2) =
      row.map (fun x => (x - np_mean_row row) ^ 2) := by
    simp [sq_abs]
  rw [harg, np_mean_row, List.length_map, hlen]

/-- C5: for a valid matrix, the stddev component returned by
calculate_student_statistics is the population standard deviation:
the square root of the sum of squared deviations from the returned mean
divided by C (numpy ddof = 0), not by C - 1. -/
theorem claim_C5_population_std (marks : List (List ℚ)) (C : ℕ) (hC : 0 < C)
    (hrows : ∀ row ∈ marks, row.length = C)
    (means maxs mins : List ℚ) (stds : List ℝ)
    (h : calculate_student_statistics marks = Except.ok (means, maxs, mins, stds))
    (i : ℕ) (hi : i < marks.length) :
    stds.getD i 0 =
      Real.sqrt ((((marks.getD i []).map (fun x => (x - means.getD i 0) ^ 2)).sum / (C : ℚ) : ℚ)) := by
  obtain ⟨hmeans, hstds⟩ := components_of_ok marks C hC hrows means maxs mins stds h
  subst hmeans hstds
  obtain ⟨hlen, hne⟩ := row_of_valid marks C hC hrows i hi
  rw [getD_map_of_lt np_std_row marks 0 [] i hi,
    getD_map_of_lt np_mean_row marks 0 [] i hi,
    np_std_row, np_var_row_eq (marks.getD i []) C hlen]

theorem claim_C5_witness :
    (List.map np_std_row [[(1 : ℚ), 3]]).getD 0 0 =
      Real.sqrt (((([[(1 : ℚ), 3]].getD 0 []).map
        (fun x => (x - (List.map np_mean_row [[(1 : ℚ), 3]]).getD 0 0) ^ 2)).sum / ((2 : ℕ) : ℚ) : ℚ)) :=
  claim_C5_population_std [[1, 3]] 2 (by decide) (by decide) _ _ _ _
    (calculate_student_statistics_ok [[1, 3]] (by decide)) 0 (by decide)

/-- C6: for equal-length labels and means, rank_students returns a
permutation of the input labels, and the rank component is exactly
[1, 2, ..., R] regardless of ties. -/
theorem claim_C6_perm_and_ranks (names : List String) (means : List ℚ)
    (h : names.length = means.length) :
    ∃ rn rm, rank_students names means = Except.ok (rn, rm, List.range' 1 names.length)
      ∧ rn.Perm names := by
  have hok := rank_students_ok names means (le_of_eq h.symm)
  have harange : np_arange 1 (names.length + 1) = List.range' 1 names.length := by
    simp [np_arange]
  refine ⟨(sorted_indices means).map (fun i => names.getD i default),
    (sorted_indices means).map (fun i => means.getD i 0), ?_, ?_⟩
  · rw [hok, harange]
  · have hperm := (sorted_indices_perm means).map (fun i => names.getD i default)
    rw [← h, map_getD_range names default] at hperm
    exact hperm

theorem claim_C6_witness :
    ∃ rn rm, rank_students ["A", "B"] [2, 1] =
      Except.ok (rn, rm, List.range' 1 (["A", "B"] : List String).length)
      ∧ rn.Perm ["A", "B"] :=
  claim_C6_perm_and_ranks ["A", "B"] [2, 1] (by decide)

/-- C7: for a valid matrix, calculate_student_statistics returns one
mean per row, each mean is the row sum divided by C, and each mean lies
between the minimum and the maximum of its row. -/
theorem claim_C7_means_in_range (marks : List (List ℚ)) (C : ℕ) (hC : 0 < C)
    (hrows : ∀ row ∈ marks, row.length = C)
    (means maxs mins : List ℚ) (stds : List ℝ)
    (h : calculate_student_statistics marks = Except.ok (means, maxs, mins, stds)) :
    means.length = marks.length
    ∧ ∀ i, i < marks.length →
        means.getD i 0 = (marks.getD i []).sum / (C : ℚ)
        ∧ np_min_val (marks.getD i []) ≤ means.getD i 0
        ∧ means.getD i 0 ≤ np_max_val (marks.getD i []) := by
  obtain ⟨hmeans, _⟩ := components_of_ok marks C hC hrows means maxs mins stds h
  subst hmeans
  refine ⟨by simp, ?_⟩
  intro i hi
  obtain ⟨hlen, hne⟩ := row_of_valid marks C hC hrows i hi
  rw [getD_map_of_lt np_mean_row marks 0 [] i hi]
  exact ⟨by rw [np_mean_row, hlen], min_le_np_mean_row _ hne, np_mean_row_le_max _ hne⟩

theorem claim_C7_witness :
    (List.map np_mean_row [[(1 : ℚ), 3]]).length = ([[(1 : ℚ), 3]] : List (List ℚ)).length
    ∧ ∀ i, i < ([[(1 : ℚ), 3]] : List (List ℚ)).length →
        (List.map np_mean_row [[(1 : ℚ), 3]]).getD i 0 =
          ([[(1 : ℚ), 3]].getD i []).sum / ((2 : ℕ) : ℚ)
        ∧ np_min_val ([[(1 : ℚ), 3]].getD i []) ≤ (List.map np_mean_row [[(1 : ℚ), 3]]).getD i 0
        ∧ (List.map np_mean_row [[(1 : ℚ), 3]]).getD i 0 ≤ np_max_val ([[(1 : ℚ), 3]].getD i []) :=
  claim_C7_means_in_range [[1, 3]] 2 (by decide) (by decide) _ _ _ _
    (calculate_student_statistics_ok [[1, 3]] (by decide))

/-- C8: for a valid matrix, the returned stddev of a row is zero exactly
when all entries of that row are equal. -/
theorem claim_C8_std_zero_iff (marks : List (List ℚ)) (C : ℕ) (hC : 0 < C)
    (hrows : ∀ row ∈ marks, row.length = C)
    (means maxs mins : List ℚ) (stds : List ℝ)
    (h : calculate_student_statistics marks = Except.ok (means, maxs, mins, stds))
    (i : ℕ) (hi : i < marks.length) :
    stds.getD i 0 = 0 ↔ ∀ x ∈ marks.getD i [], ∀ y ∈ marks.getD i [], x = y := by
  obtain ⟨_, hstds⟩ := components_of_ok marks C hC hrows means maxs mins stds h
  subst hstds
  obtain ⟨hlen, hne⟩ := row_of_valid marks C hC hrows i hi
  rw [getD_map_of_lt np_std_row marks 0 [] i hi, np_std_row, Real.sqrt_eq_zero']
  constructor
  · intro hle
    have hcast : np_var_row (marks.getD i []) ≤ 0 := by exact_mod_cast hle
    have hzero : np_var_row (marks.getD i []) = 0 :=
      le_antisymm hcast (np_var_row_nonneg (marks.getD i []))
    exact (all_eq_iff_all_eq_mean (marks.getD i []) hne).mpr
      ((np_var_row_eq_zero_iff (marks.getD i []) hne).mp hzero)
  · intro hall
    have hzero : np_var_row (marks.getD i []) = 0 :=
      (np_var_row_eq_zero_iff (marks.getD i []) hne).mpr
        ((all_eq_iff_all_eq_mean (marks.getD i []) hne).mp hall)
    rw [hzero]
    simp

theorem claim_C8_witness :
    (List.map np_std_row [[(2 : ℚ), 2]]).getD 0 0 = 0 ↔
      ∀ x ∈ [[(2 : ℚ), 2]].getD 0 [], ∀ y ∈ [[(2 : ℚ), 2]].getD 0 [], x = y :=
  claim_C8_std_zero_iff [[2, 2]] 2 (by decide) (by decide) _ _ _ _
    (calculate_student_statistics_ok [[2, 2]] (by decide)) 0 (by decide)

/-- C9: the hardcoded demo data satisfies all Data Model invariants: at
least one row, every row exactly as long as the subject-label list,
at least one subject, non-negative marks, unique student names, and one
student name per row. -/
theorem claim_C9_demo_invariants :
    1 ≤ create_student_data.1.length
    ∧ (∀ row ∈ create_student_data.1, row.length = create_student_data.2.2.length)
    ∧ 1 ≤ create_student_data.2.2.length
    ∧ (∀ row ∈ create_student_data.1, ∀ x ∈ row, 0 ≤ x)
    ∧ create_student_data.2.1.Nodup
    ∧ create_student_data.2.1.length = create_student_data.1.length := by
  decide

/-- C10: rank_students reorders the labels and the means by the same
index permutation, so every output position carries a label together
with its own mean: for each k there is an input row i with
rankedLabels[k] = labels[i] and rankedMeans[k] = means[i]. -/
theorem claim_C10_pairing (names : List String) (means : List ℚ)
    (h : names.length = means.length) (rn : List String) (rm : List ℚ) (rk : List ℕ)
    (hok : rank_students names means = Except.ok (rn, rm, rk))
    (k : ℕ) (hk : k < rn.length) :
    ∃ i, i < names.length ∧ rn.getD k default = names.getD i default
      ∧ rm.getD k 0 = means.getD i 0 := by
  rw [rank_students_ok names means (le_of_eq h.symm)] at hok
  simp only [Except.ok.injEq, Prod.mk.injEq] at hok
  obtain ⟨hrn, hrm, _⟩ := hok
  subst hrn hrm
  have hks : k < (sorted_indices means).length := by
    rw [List.length_map] at hk
    exact hk
  refine ⟨(sorted_indices means).getD k 0, ?_, ?_, ?_⟩
  · have hmem := getD_mem_of_lt (sorted_indices means) 0 k hks
    have := (mem_sorted_indices means _).mp hmem
    omega
  · exact getD_map_of_lt (fun i => names.getD i default) (sorted_indices means) default 0 k hks
  · exact getD_map_of_lt (fun i => means.getD i 0) (sorted_indices means) 0 0 k hks

theorem claim_C10_witness :
    ∃ i, i < (["A", "B"] : List String).length
      ∧ (["B", "A"] : List String).getD 0 default = (["A", "B"] : List String).getD i default
      ∧ ([2, 1] : List ℚ).getD 0 0 = ([1, 2] : List ℚ).getD i 0 :=
  claim_C10_pairing ["A", "B"] [1, 2] rfl ["B", "A"] [2, 1] [1, 2] rfl 0 (by decide)

end StudentMarks
